import Mathlib

/-!
Verification of the GENIE-era event-generator sources against their
natural-language specification.  The development shallowly embeds the
parts of the repository that the checked properties are about:

* the INTRANUKE intranuclear-cascade driver (declared in
  `EVGModules/Intranuke.h`; its implementation file is not part of the
  source tree, so the transport loop, fate selection and nuclear medium
  are modelled from the specification's component contracts),
* `DISHadronicSystemGenerator::AddFragmentationProducts`,
* `FragmentCharmDISGenerator::GenerateCharmHadronOnly`,
* `UnstableParticleDecayer::ProcessEventRecord`.

Kinematics are embedded with exact rational components; machine floating
point is not modelled, only the data and control flow of the code.
-/

set_option autoImplicit false

namespace Genie

/-- Four-vector with exact rational components (px, py, pz, E) or
(x, y, z, t). -/
structure Vec4 where
  x : ℚ
  y : ℚ
  z : ℚ
  t : ℚ
deriving DecidableEq, Repr

/-- GHEP ledger status codes used by this development, mirroring
`GHEP/GHepStatus.h`. -/
inductive GHepStatus where
  | initialState
  | stableFinalState
  | intermediateState
  | decayedState
  | hadronInTheNucleus
  | dISPreFragmHadronicState
deriving DecidableEq, Repr

/-- A GHEP event-record entry: pdg code, status, mother index, momentum
and position four-vectors. -/
structure GHepParticleR where
  pdg : Int
  status : GHepStatus
  mother : Int
  p4 : Vec4
  v4 : Vec4
deriving DecidableEq, Repr

/-- A ROOT `TMCParticle` (LUJETS-style record): KS status code, KF pdg
code and a momentum four-vector. -/
structure TMCParticle where
  ks : Int
  kf : Int
  p4 : Vec4
deriving DecidableEq, Repr

/-! ### FateSelector channel probabilities

Modelled from the spec: the implementation of `Intranuke::HadronFate`
is not in the source tree.  Per the spec, the per-channel mean free
paths combine via the harmonic rule `1/lambda_total = sum 1/lambda_ch`
and each channel is selected with probability
`lambda_total / lambda_ch`. -/

/-- Modelled from the spec: total mean free path obtained from the
per-channel mean free paths by the harmonic combining rule. -/
def lambdaTotal (ls : List ℚ) : ℚ :=
  ((ls.map fun l => l⁻¹).sum)⁻¹

/-- Modelled from the spec: the FateSelector's per-channel selection
probabilities, `lambda_total / lambda_ch` in the channels' fixed
enumeration order. -/
def channelProbs (ls : List ℚ) : List ℚ :=
  ls.map fun l => lambdaTotal ls / l

/-! ### NuclearMedium

Modelled from the spec: the implementation of
`Intranuke::SetNuclearRadius` and its density profile are not in the
source tree.  The radius follows the standard scale-parameter form
`R = r0 * A^(1/3)` (the `fR0` configuration datum of `Intranuke.h`),
with a uniform density normalized to mass number inside the radius and
exactly zero outside.  Both are pure functions of their arguments. -/

/-- Modelled from the spec: nuclear radius as a function of the mass
number, `R(A) = r0 * A^(1/3)`. -/
noncomputable def nuclearRadius (r0 : ℝ) (A : ℕ) : ℝ :=
  r0 * (A : ℝ) ^ ((1 : ℝ) / 3)

/-- Modelled from the spec: local nuclear matter density at radial
distance `r`, uniform inside the nuclear radius and zero outside. -/
noncomputable def nuclearDensity (r0 : ℝ) (A : ℕ) (r : ℝ) : ℝ :=
  if r < nuclearRadius r0 A then
    (3 * (A : ℝ)) / (4 * Real.pi * (nuclearRadius r0 A) ^ 3)
  else 0

/-! ### The intranuclear cascade driver

Modelled from the spec: the implementation of
`Intranuke::TransportInPhysicalNuc`, `Intranuke::TransportInTransparentNuc`,
`Intranuke::CanRescatter` and the per-hadron transport loop is not in the
source tree (only `EVGModules/Intranuke.h` declares them).  The model
follows the spec's CascadeDriver state machine: per-hadron transport
status, formation zone, stochastic stepping against a random stream, and
fate application, with a per-hadron step budget whose exhaustion forces
the status to Escaped.  The pluggable physics inputs (formation length,
step sampling, containment test, fate selection, outcome kinematics) are
abstracted as a model record, since the spec declares them pluggable. -/

/-- Per-hadron transport status of the cascade state machine. -/
inductive TransportStatus where
  | preCascade
  | inFormationZone
  | propagating
  | escaped
  | absorbed
  | rescatteredTerminal
deriving DecidableEq, Repr

/-- Interaction channel selected for a hadron at one transport step. -/
inductive Fate where
  | elastic
  | inelastic
  | absorption
  | chargeExchange
deriving DecidableEq, Repr

/-- The transport subject: species identifier, four-momentum,
four-position and transport status. -/
structure Hadron where
  species : Int
  p4 : Vec4
  x4 : Vec4
  status : TransportStatus
deriving DecidableEq, Repr

/-- Modelled from the spec: the cascade's pluggable physics inputs
(`CanRescatter`, `FormationZone`, `GenerateStep`, `IsInNucleus`,
`HadronFate` and outcome kinematics of the `Sim*` members declared in
`Intranuke.h`). -/
structure CascadeModel where
  canRescatter : Int → Bool
  formationLength : Hadron → ℚ
  sampleStep : Hadron → ℚ → ℚ
  move : Vec4 → Vec4 → ℚ → Vec4
  stillInside : Vec4 → Bool
  selectFate : Hadron → ℚ → Fate
  scatterP4 : Hadron → Fate → Vec4
  exchangeSpecies : Int → Int

/-- Transient per-hadron cascade state: the hadron and its remaining
formation-zone distance. -/
structure TState where
  had : Hadron
  remFormation : ℚ
deriving DecidableEq, Repr

/-- A transport status is terminal when the hadron is done. -/
def isTerminal : TransportStatus → Bool
  | .escaped => true
  | .absorbed => true
  | .rescatteredTerminal => true
  | _ => false

/-- Position of a status along the forward chain
PreCascade, InFormationZone, Propagating, then the terminal statuses. -/
def statusRank : TransportStatus → ℕ
  | .preCascade => 0
  | .inFormationZone => 1
  | .propagating => 2
  | .escaped => 3
  | .absorbed => 4
  | .rescatteredTerminal => 5

/-- Replace the transport status of a cascade state. -/
def setStatus (st : TState) (s : TransportStatus) : TState :=
  { st with had := { st.had with status := s } }

/-- Free-stream through the remaining formation-zone distance: the
position advances along the momentum direction, the remaining
formation distance drops to zero. -/
def formed (M : CascadeModel) (st : TState) : TState :=
  { st with
    had := { st.had with x4 := M.move st.had.x4 st.had.p4 st.remFormation },
    remFormation := 0 }

/-- Advance the hadron position by the step distance sampled from the
uniform draw `u`. -/
def movedBy (M : CascadeModel) (st : TState) (u : ℚ) : TState :=
  { st with
    had := { st.had with
      x4 := M.move st.had.x4 st.had.p4 (M.sampleStep st.had u) } }

/-- Apply the fate selected from the uniform draw `u`: elastic and
charge-exchange outcomes update the kinematics and return the status to
Propagating; inelastic and absorption outcomes are terminal. -/
def applyFate (M : CascadeModel) (st1 : TState) (u : ℚ) : TState :=
  match M.selectFate st1.had u with
  | .elastic =>
      { st1 with had := { st1.had with
          p4 := M.scatterP4 st1.had .elastic,
          status := .propagating } }
  | .chargeExchange =>
      { st1 with had := { st1.had with
          species := M.exchangeSpecies st1.had.species,
          p4 := M.scatterP4 st1.had .chargeExchange,
          status := .propagating } }
  | .inelastic => setStatus st1 .rescatteredTerminal
  | .absorption => setStatus st1 .absorbed

/-- Modelled from the spec: one transition of the CascadeDriver state
machine for one hadron.  `us` is the event's random stream and `c` the
cursor of the next unconsumed draw; the returned cursor records how
many draws the step consumed. -/
def cascadeStep (M : CascadeModel) (st : TState) (us : ℕ → ℚ) (c : ℕ) :
    TState × ℕ :=
  match st.had.status with
  | .preCascade =>
      if M.canRescatter st.had.species then
        if M.formationLength st.had = 0 then
          (setStatus { st with remFormation := 0 } .propagating, c)
        else
          (setStatus { st with remFormation := M.formationLength st.had }
            .inFormationZone, c)
      else (setStatus st .escaped, c)
  | .inFormationZone =>
      if M.stillInside (formed M st).had.x4 then
        (setStatus (formed M st) .propagating, c)
      else (setStatus (formed M st) .escaped, c)
  | .propagating =>
      if M.stillInside (movedBy M st (us c)).had.x4 then
        (applyFate M (movedBy M st (us c)) (us (c + 1)), c + 2)
      else (setStatus (movedBy M st (us c)) .escaped, c + 1)
  | _ => (st, c)

/-- Fail-safe termination: force the status to Escaped when the step
budget is exhausted. -/
def forceEscaped (st : TState) : TState :=
  setStatus st .escaped

/-- Modelled from the spec: the per-hadron transport loop of
`Intranuke::TransportInPhysicalNuc`, run with a step budget `fuel`;
returns the whole sequence of transport states together with the final
random-stream cursor.  When the budget is exhausted with the hadron not
yet terminal, the status is forced to Escaped. -/
def runTrace (M : CascadeModel) : ℕ → TState → (ℕ → ℚ) → ℕ →
    List TState × ℕ
  | 0, st, _, c =>
      if isTerminal st.had.status then ([st], c)
      else ([st, forceEscaped st], c)
  | fuel + 1, st, us, c =>
      if isTerminal st.had.status then ([st], c)
      else
        let p := cascadeStep M st us c
        let q := runTrace M fuel p.1 us p.2
        (st :: q.1, q.2)

/-- Modelled from the spec: `Intranuke::TransportInTransparentNuc` marks
every hadron as Escaped without attempting any rescattering. -/
def transportInTransparentNuc (ev : List Hadron) : List Hadron :=
  ev.map fun h => { h with status := TransportStatus.escaped }

/-- Final hadron of one transported cascade state, with the advanced
random-stream cursor. -/
def finalHadron (M : CascadeModel) (fuel : ℕ) (us : ℕ → ℚ) (h : Hadron)
    (c : ℕ) : Hadron × ℕ :=
  let tr := runTrace M fuel ⟨h, 0⟩ us c
  ((tr.1.getLastD ⟨h, 0⟩).had, tr.2)

/-- Modelled from the spec: `Intranuke::TransportInPhysicalNuc`
transports each hadron of the record in order, threading the
random-stream cursor. -/
def transportInPhysicalNuc (M : CascadeModel) (fuel : ℕ)
    (ev : List Hadron) (us : ℕ → ℚ) (c : ℕ) : List Hadron × ℕ :=
  ev.foldl (fun acc h =>
    let r := finalHadron M fuel us h acc.2
    (acc.1 ++ [r.1], r.2)) ([], c)

/-- Configuration surface of the cascade: the transparent-nucleus
toggle (`Intranuke::fIsTransparent`) and the per-hadron step budget. -/
structure IntranukeConfig where
  isTransparent : Bool
  stepBudget : ℕ
deriving DecidableEq, Repr

/-- Modelled from the spec: `Intranuke::ProcessEventRecord` dispatches
on the transparent-nucleus toggle. -/
def intranukeProcessEventRecord (cfg : IntranukeConfig) (M : CascadeModel)
    (ev : List Hadron) (us : ℕ → ℚ) (c : ℕ) : List Hadron × ℕ :=
  if cfg.isTransparent then (transportInTransparentNuc ev, c)
  else transportInPhysicalNuc M cfg.stepBudget ev us c

/-! ### Outcome of an event-generation step

`eventAbort` models setting the `kNoAvailablePhaseSpace` event flag and
throwing a fast-forwarded `EVGThreadException` (the current event is
flagged as unusable and abandoned; the run continues).  `runAbort`
models a failed `assert` (the whole process aborts; the event is not
flagged). -/
inductive GenResult (α : Type) where
  | ok : α → GenResult α
  | eventAbort : GenResult α
  | runAbort : GenResult α
deriving DecidableEq, Repr

/-! ### DISHadronicSystemGenerator::AddFragmentationProducts

Translated from `EVGModules/DISHadronicSystemGenerator.cxx`. -/

/-- The ledger status given to fragmentation products: hadron-in-the-
nucleus when the struck nucleon was inside a nucleus, stable final
state otherwise (`DISHadronicSystemGenerator.cxx`, lines 117-119). -/
def fragmentationStatus (is_nucleus : Bool) : GHepStatus :=
  if is_nucleus then .hadronInTheNucleus else .stableFinalState

/-- The particles appended to the event record by
`AddFragmentationProducts`: each fragmentation product with KS code 1,
boosted to the LAB frame, tagged with `fragmentationStatus`, mother set
to the final-state hadronic system position and a dummy position
four-vector (lines 112-133). -/
def fragProducts (is_nucleus : Bool) (mom : Int) (boost : Vec4 → Vec4)
    (plist : List TMCParticle) : List GHepParticleR :=
  plist.filterMap fun p =>
    if p.ks = 1 then
      some { pdg := p.kf, status := fragmentationStatus is_nucleus,
             mother := mom, p4 := boost p.p4, v4 := ⟨0, 0, 0, 0⟩ }
    else none

/-- `AddFragmentationProducts` control flow (lines 85-136): a null
particle list from the hadronizer sets the `kNoAvailablePhaseSpace`
event flag and throws an event-scoped fast-forward exception; otherwise
the products are appended. -/
def addFragmentationProducts (is_nucleus : Bool) (mom : Int)
    (boost : Vec4 → Vec4) (plist : Option (List TMCParticle)) :
    GenResult (List GHepParticleR) :=
  match plist with
  | none => .eventAbort
  | some ps => .ok (fragProducts is_nucleus mom boost ps)

/-! ### FragmentCharmDISGenerator::GenerateCharmHadronOnly retry loop

Translated from `EVGModules/FragmentCharmDISGenerator.cxx`,
lines 91-107. -/

/-- One sampled charm-hadron candidate: the generated pdg code, the
hadron mass looked up for it and the fragmentation variable z. -/
structure CharmTry where
  pdgc : Int
  m : ℚ
  z : ℚ
deriving DecidableEq, Repr

/-- The acceptance test of the retry loop: with `EC = z * EHad` and
`p2 = EC^2 - m^2`, the candidate is rejected (pdgc reset to 0) when
`m > MHad || p2 < 0` (lines 96-104). -/
def charmAccept (t : CharmTry) (EHad MHad : ℚ) : Bool :=
  let EC := t.z * EHad
  let p2 := EC ^ 2 - t.m ^ 2
  ¬(t.m > MHad ∨ p2 < 0)

/-- The `while(itry<1000 && pdgc==0)` loop of lines 94-106 followed by
`assert(pdgc!=0)` on line 107: `fuel` counts the tries left out of
1000, `itry` indexes the candidate stream.  Exhausting all tries fails
the assertion, which aborts the whole run without flagging the
event. -/
def charmLoopAux (tries : ℕ → CharmTry) (EHad MHad : ℚ) :
    ℕ → ℕ → GenResult CharmTry
  | 0, _ => .runAbort
  | fuel + 1, itry =>
      let t := tries itry
      if charmAccept t EHad MHad then .ok t
      else charmLoopAux tries EHad MHad fuel (itry + 1)

/-- Charm-hadron sampling with the code's retry bound of 1000. -/
def charmRetryLoop (tries : ℕ → CharmTry) (EHad MHad : ℚ) :
    GenResult CharmTry :=
  charmLoopAux tries EHad MHad 1000 0

/-! ### UnstableParticleDecayer

Translated from `EVGModules/UnstableParticleDecayer.cxx`. -/

/-- The hardwired list of pdg codes decayed by the temporary
workaround in `UnstableParticleDecayer::IsUnstable` (lines 125-128):
pi0, D+, D-, D0, anti-D0, Ds+, Ds-, Lambda_c+, Sigma_c+, Sigma_c++. -/
def particlesToDecay : List Int :=
  [111, 411, -411, 421, -421, 431, -431, 4122, 4212, 4222]

/-- `UnstableParticleDecayer::IsUnstable` (lines 113-138): the pdg code
is in the hardwired list or is a baryon resonance (the resonance test
lives outside this source tree and is a parameter). -/
def isUnstable (isBaryonRes : Int → Bool) (pdg : Int) : Bool :=
  decide (0 < particlesToDecay.count pdg) || isBaryonRes pdg

/-- `UnstableParticleDecayer::ToBeDecayed` (lines 105-111): nonzero pdg
code, stable-final-state status, and unstable. -/
def toBeDecayed (isBaryonRes : Int → Bool) (p : GHepParticleR) : Bool :=
  decide (p.pdg ≠ 0) && decide (p.status = .stableFinalState)
    && isUnstable isBaryonRes p.pdg

/-- The KS code of a decay product interpreted as a GHEP status, as in
the `GHepStatus_t (dpmc->GetKS())` cast of line 159. -/
def ghepStatusFromKS (ks : Int) : GHepStatus :=
  if ks = 0 then .initialState
  else if ks = 1 then .stableFinalState
  else if ks = 3 then .decayedState
  else .intermediateState

/-- `UnstableParticleDecayer::CopyToEventRecord` (lines 140-168): only
decay products whose status is stable-final-state are appended, with
the mother position and a dummy position four-vector. -/
def copyToEventRecord (products : List TMCParticle) (mother_pos : Int) :
    List GHepParticleR :=
  products.filterMap fun dp =>
    if ghepStatusFromKS dp.ks = .stableFinalState then
      some { pdg := dp.kf, status := .stableFinalState,
             mother := mother_pos, p4 := dp.p4, v4 := ⟨0, 0, 0, 0⟩ }
    else none

/-- One iteration of the `ProcessEventRecord` particle loop
(lines 65-102) at position `ipos`: a to-be-decayed particle is handed
to the decay model; a null product container leaves the record
untouched, a non-null one marks the particle as a decayed state and
appends its daughters. -/
def decayVisit (decayer : Int → Vec4 → Option (List TMCParticle))
    (isBaryonRes : Int → Bool) (evrec : List GHepParticleR) (ipos : ℕ) :
    List GHepParticleR :=
  match evrec.get? ipos with
  | none => evrec
  | some p =>
      if toBeDecayed isBaryonRes p then
        match decayer p.pdg p.p4 with
        | none => evrec
        | some products =>
            evrec.set ipos { p with status := .decayedState }
              ++ copyToEventRecord products ipos
      else evrec

/-! ### Concrete instances used to exercise the theorems on explicit
inputs -/

/-- A concrete, fully computable cascade model (kept free of rational
normalisation so that the kernel can evaluate runs on explicit
inputs). -/
def sampleModel : CascadeModel where
  canRescatter := fun s =>
    decide (s = 211 ∨ s = -211 ∨ s = 111 ∨ s = 2212 ∨ s = 2112)
  formationLength := fun _ => 0
  sampleStep := fun _ u => u
  move := fun x _ d => { x with z := d }
  stillInside := fun x => decide (x.z.num < 5)
  selectFate := fun _ u => if u.num ≤ 0 then .elastic else .absorption
  scatterP4 := fun h _ => h.p4
  exchangeSpecies := fun s => -s

/-- A pion at the nuclear centre, before the cascade. -/
def samplePion : TState :=
  ⟨⟨211, ⟨0, 0, 1, 1⟩, ⟨0, 0, 0, 0⟩, .preCascade⟩, 0⟩

/-- An electron mistakenly submitted to the cascade. -/
def sampleLepton : TState :=
  ⟨⟨11, ⟨0, 0, 1, 1⟩, ⟨0, 0, 0, 0⟩, .preCascade⟩, 0⟩

/-- The all-zero random stream. -/
def zeroStream : ℕ → ℚ := fun _ => 0

/-! ### Basic transport-loop lemmas -/

/-- A hadron already terminal is returned unchanged by the loop. -/
theorem runTrace_of_terminal (M : CascadeModel) (fuel : ℕ) (st : TState)
    (us : ℕ → ℚ) (c : ℕ) (h : isTerminal st.had.status = true) :
    runTrace M fuel st us c = ([st], c) := by
  cases fuel <;> simp [runTrace, h]

/-- The trace starts with the submitted state. -/
theorem runTrace_head (M : CascadeModel) (fuel : ℕ) (st : TState)
    (us : ℕ → ℚ) (c : ℕ) :
    (runTrace M fuel st us c).1.head? = some st := by
  cases fuel <;> by_cases h : isTerminal st.had.status <;>
    simp [runTrace, h]

/-- The trace is never empty. -/
theorem runTrace_ne_nil (M : CascadeModel) (fuel : ℕ) (st : TState)
    (us : ℕ → ℚ) (c : ℕ) :
    (runTrace M fuel st us c).1 ≠ [] := by
  intro hnil
  have := runTrace_head M fuel st us c
  rw [hnil] at this
  simp at this

/-- C1 core: the trace ends in a terminal status and has at most
`fuel + 2` entries. -/
theorem runTrace_last_terminal (M : CascadeModel) (fuel : ℕ) (st : TState)
    (us : ℕ → ℚ) (c : ℕ) :
    ∃ t, (runTrace M fuel st us c).1.getLast? = some t ∧
      isTerminal t.had.status = true ∧
      (runTrace M fuel st us c).1.length ≤ fuel + 2 := by
  induction fuel generalizing st c with
  | zero =>
      by_cases h : isTerminal st.had.status
      · exact ⟨st, by simp [runTrace, h], h, by simp [runTrace, h]⟩
      · refine ⟨forceEscaped st, by simp [runTrace, h], rfl, by simp [runTrace, h]⟩
  | succ n ih =>
      by_cases h : isTerminal st.had.status
      · exact ⟨st, by simp [runTrace, h], h, by simp [runTrace, h]⟩
      · obtain ⟨t, hlast, hterm, hlen⟩ :=
          ih (cascadeStep M st us c).1 (cascadeStep M st us c).2
        refine ⟨t, ?_, hterm, ?_⟩
        · have hne := runTrace_ne_nil M n (cascadeStep M st us c).1 us
            (cascadeStep M st us c).2
          obtain ⟨b, l, hb⟩ :=
            List.exists_cons_of_ne_nil hne
          simp only [runTrace, h, if_false]
          rw [hb] at hlast ⊢
          simpa [List.getLast?_cons_cons] using hlast
        · simp only [runTrace, h, if_false]
          simpa [Nat.succ_le_succ_iff] using hlen

/-! ### Status-monotonicity lemmas -/

/-- Distinct statuses have distinct ranks. -/
theorem statusRank_injOn (s t : TransportStatus)
    (h : statusRank s = statusRank t) : s = t := by
  cases s <;> cases t <;> simp_all [statusRank]

/-- A non-terminal status sits strictly below the terminal block. -/
theorem nonterminal_rank_le (s : TransportStatus)
    (h : isTerminal s = false) : statusRank s ≤ 2 := by
  cases s <;> simp_all [isTerminal, statusRank]

/-- Every fate outcome has rank at least that of Propagating. -/
theorem applyFate_rank (M : CascadeModel) (st1 : TState) (u : ℚ) :
    2 ≤ statusRank (applyFate M st1 u).had.status := by
  unfold applyFate
  rcases M.selectFate st1.had u with _ | _ | _ | _ <;>
    simp [setStatus, statusRank]

/-- One cascade transition never moves the status backwards along the
chain. -/
theorem cascadeStep_rank (M : CascadeModel) (st : TState) (us : ℕ → ℚ)
    (c : ℕ) :
    statusRank st.had.status ≤
      statusRank (cascadeStep M st us c).1.had.status := by
  obtain ⟨⟨sp, p4, x4, status⟩, rem⟩ := st
  cases status
  case preCascade =>
      simp only [cascadeStep]
      split_ifs <;> simp [setStatus, statusRank]
  case inFormationZone =>
      simp only [cascadeStep]
      split_ifs <;> simp [setStatus, statusRank, formed]
  case propagating =>
      simp only [cascadeStep]
      split_ifs with hin
      · simpa [statusRank] using
          applyFate_rank M
            (movedBy M ⟨⟨sp, p4, x4, .propagating⟩, rem⟩ (us c)) (us (c + 1))
      · simp [setStatus, statusRank, movedBy]
  case escaped => simp [cascadeStep]
  case absorbed => simp [cascadeStep]
  case rescatteredTerminal => simp [cascadeStep]

/-- The whole trace is rank-monotone between consecutive entries. -/
theorem runTrace_chain (M : CascadeModel) (fuel : ℕ) (st : TState)
    (us : ℕ → ℚ) (c : ℕ) :
    List.Chain'
      (fun a b : TState => statusRank a.had.status ≤ statusRank b.had.status)
      (runTrace M fuel st us c).1 := by
  induction fuel generalizing st c with
  | zero =>
      by_cases h : isTerminal st.had.status
      · simp [runTrace, h]
      · have h' : isTerminal st.had.status = false := by simpa using h
        have hle := nonterminal_rank_le st.had.status h'
        simp only [runTrace, h', Bool.false_eq_true, if_false]
        rw [List.chain'_pair]
        have h3 : statusRank (forceEscaped st).had.status = 3 := rfl
        omega
  | succ n ih =>
      by_cases h : isTerminal st.had.status
      · simp [runTrace, h]
      · have h' : isTerminal st.had.status = false := by simpa using h
        simp only [runTrace, h', Bool.false_eq_true, if_false]
        refine List.chain'_cons'.mpr ⟨?_, ih _ _⟩
        intro y hy
        have hhead := runTrace_head M n (cascadeStep M st us c).1 us
          (cascadeStep M st us c).2
        rw [hhead] at hy
        simp only [Option.mem_def, Option.some.injEq] at hy
        subst hy
        exact cascadeStep_rank M st us c

/-- Rank monotonicity between any two trace positions. -/
theorem runTrace_rank_le (M : CascadeModel) (fuel : ℕ) (st : TState)
    (us : ℕ → ℚ) (c : ℕ) {i j : ℕ} {a b : TState} (hij : i ≤ j)
    (ha : (runTrace M fuel st us c).1.get? i = some a)
    (hb : (runTrace M fuel st us c).1.get? j = some b) :
    statusRank a.had.status ≤ statusRank b.had.status := by
  rcases Nat.eq_or_lt_of_le hij with rfl | hlt
  · rw [ha] at hb
    cases hb
    exact le_rfl
  · haveI : IsTrans TState
        (fun a b : TState => statusRank a.had.status ≤ statusRank b.had.status) :=
      ⟨fun x y z hxy hyz => le_trans hxy hyz⟩
    have hp := List.chain'_iff_pairwise.mp (runTrace_chain M fuel st us c)
    obtain ⟨hia, hga⟩ := List.get?_eq_some.mp ha
    obtain ⟨hib, hgb⟩ := List.get?_eq_some.mp hb
    have hr := List.pairwise_iff_get.mp hp ⟨i, hia⟩ ⟨j, hib⟩
      (Fin.mk_lt_mk.mpr hlt)
    rw [hga, hgb] at hr
    exact hr

/-! ### Claims about the transport loop -/

/-- C1: every hadron submitted to the cascade driver reaches a terminal
status within the per-hadron step budget — the transport trace ends in a
terminal status and has at most budget-plus-two entries — and when the
budget is exhausted with the hadron still Propagating its status is
forced to Escaped, so no transport loop runs unboundedly. -/
theorem intranuke_transport_terminates (M : CascadeModel) (fuel : ℕ)
    (st : TState) (us : ℕ → ℚ) (c : ℕ) :
    (∃ t, (runTrace M fuel st us c).1.getLast? = some t ∧
        isTerminal t.had.status = true ∧
        (runTrace M fuel st us c).1.length ≤ fuel + 2) ∧
      (runTrace M 0 (setStatus st .propagating) us c).1.getLast? =
        some (forceEscaped (setStatus st .propagating)) ∧
      (forceEscaped (setStatus st .propagating)).had.status = .escaped := by
  refine ⟨runTrace_last_terminal M fuel st us c, ?_, rfl⟩
  simp [runTrace, isTerminal, setStatus]

/-- C2: along any reachable transport history the status only moves
forward along the chain PreCascade, InFormationZone, Propagating,
terminal (rank-monotone), and no status value is taken again after it
has been left: whenever positions i ≤ j ≤ k of the trace carry the same
status at i and k, position j carries it too. -/
theorem intranuke_status_monotone (M : CascadeModel) (fuel : ℕ)
    (st : TState) (us : ℕ → ℚ) (c i j k : ℕ) (a b d : TState)
    (hij : i ≤ j) (hjk : j ≤ k)
    (ha : (runTrace M fuel st us c).1.get? i = some a)
    (hb : (runTrace M fuel st us c).1.get? j = some b)
    (hd : (runTrace M fuel st us c).1.get? k = some d) :
    statusRank a.had.status ≤ statusRank b.had.status ∧
      (a.had.status = d.had.status → b.had.status = a.had.status) := by
  have h1 := runTrace_rank_le M fuel st us c hij ha hb
  have h2 := runTrace_rank_le M fuel st us c hjk hb hd
  refine ⟨h1, fun had => ?_⟩
  have hrad : statusRank a.had.status = statusRank d.had.status :=
    congrArg statusRank had
  exact statusRank_injOn _ _ (by omega)

/-- Witness for C2 on a concrete transport trace. -/
theorem intranuke_status_monotone_witness :
    ((0 : ℕ) ≤ 0 ∧
      (runTrace sampleModel 0 samplePion zeroStream 0).1.get? 0 =
        some samplePion) ∧
      statusRank samplePion.had.status ≤ statusRank samplePion.had.status ∧
      (samplePion.had.status = samplePion.had.status →
        samplePion.had.status = samplePion.had.status) :=
  ⟨⟨le_rfl, by rfl⟩,
    intranuke_status_monotone sampleModel 0 samplePion zeroStream 0 0 0 0
      samplePion samplePion samplePion le_rfl le_rfl (by rfl) (by rfl)
      (by rfl)⟩

/-- C8: a hadron whose species is outside the cascade's physical scope
is immediately returned as Escaped, with four-momentum and four-position
unchanged, without consuming any random draw. -/
theorem intranuke_unrescatterable_passthrough (M : CascadeModel)
    (fuel : ℕ) (st : TState) (us : ℕ → ℚ) (c : ℕ)
    (hpre : st.had.status = .preCascade)
    (hno : M.canRescatter st.had.species = false)
    (hfuel : 0 < fuel) :
    runTrace M fuel st us c = ([st, setStatus st .escaped], c) ∧
      (setStatus st .escaped).had.p4 = st.had.p4 ∧
      (setStatus st .escaped).had.x4 = st.had.x4 ∧
      (setStatus st .escaped).had.status = .escaped := by
  obtain ⟨n, rfl⟩ : ∃ n, fuel = n + 1 := ⟨fuel - 1, by omega⟩
  have hterm : isTerminal st.had.status = false := by rw [hpre]; rfl
  have hstep : cascadeStep M st us c = (setStatus st .escaped, c) := by
    obtain ⟨⟨sp, p4, x4, status⟩, rem⟩ := st
    simp only at hpre
    subst hpre
    simp only at hno
    simp [cascadeStep, hno]
  have hrun : runTrace M (n + 1) st us c
      = (st :: (runTrace M n (setStatus st .escaped) us c).1,
         (runTrace M n (setStatus st .escaped) us c).2) := by
    simp [runTrace, hterm, hstep]
  rw [runTrace_of_terminal M n (setStatus st .escaped) us c rfl] at hrun
  exact ⟨hrun, rfl, rfl, rfl⟩

/-- Witness for C8: an electron handed to the concrete cascade model. -/
theorem intranuke_unrescatterable_witness :
    (sampleLepton.had.status = .preCascade ∧
      sampleModel.canRescatter sampleLepton.had.species = false ∧
      (0 : ℕ) < 1) ∧
      runTrace sampleModel 1 sampleLepton zeroStream 0 =
        ([sampleLepton, setStatus sampleLepton .escaped], 0) ∧
      (setStatus sampleLepton .escaped).had.p4 = sampleLepton.had.p4 ∧
      (setStatus sampleLepton .escaped).had.x4 = sampleLepton.had.x4 ∧
      (setStatus sampleLepton .escaped).had.status = .escaped :=
  ⟨⟨rfl, by decide, Nat.zero_lt_one⟩,
    intranuke_unrescatterable_passthrough sampleModel 1 sampleLepton
      zeroStream 0 rfl (by decide) Nat.zero_lt_one⟩

/-- C4: with the transparent-nucleus toggle enabled, every hadron of the
processed record ends with status Escaped and unchanged four-momentum,
for every cascade model and nucleus, and no random draw is consumed. -/
theorem intranuke_transparent (cfg : IntranukeConfig) (M : CascadeModel)
    (ev : List Hadron) (us : ℕ → ℚ) (c i : ℕ) (h0 : Hadron)
    (htr : cfg.isTransparent = true)
    (hi : ev.get? i = some h0) :
    (intranukeProcessEventRecord cfg M ev us c).2 = c ∧
      (intranukeProcessEventRecord cfg M ev us c).1.get? i =
        some { h0 with status := TransportStatus.escaped } ∧
      Hadron.p4 { h0 with status := TransportStatus.escaped } = h0.p4 := by
  refine ⟨by simp [intranukeProcessEventRecord, htr], ?_, rfl⟩
  simp only [intranukeProcessEventRecord, htr, if_true,
    transportInTransparentNuc]
  rw [List.get?_eq_getElem?, List.getElem?_map, ← List.get?_eq_getElem?, hi]
  rfl

/-- Witness for C4: a two-hadron record in transparent mode. -/
theorem intranuke_transparent_witness :
    ((IntranukeConfig.mk true 5).isTransparent = true ∧
      [samplePion.had, sampleLepton.had].get? 1 = some sampleLepton.had) ∧
      (intranukeProcessEventRecord ⟨true, 5⟩ sampleModel
          [samplePion.had, sampleLepton.had] zeroStream 0).2 = 0 ∧
      (intranukeProcessEventRecord ⟨true, 5⟩ sampleModel
          [samplePion.had, sampleLepton.had] zeroStream 0).1.get? 1 =
        some { sampleLepton.had with status := TransportStatus.escaped } ∧
      Hadron.p4 { sampleLepton.had with status := TransportStatus.escaped } =
        sampleLepton.had.p4 :=
  ⟨⟨rfl, rfl⟩,
    intranuke_transparent ⟨true, 5⟩ sampleModel
      [samplePion.had, sampleLepton.had] zeroStream 0 1 sampleLepton.had
      rfl rfl⟩

/-! ### Determinism of the transport loop -/

/-- One step never moves the random-stream cursor backwards. -/
theorem cascadeStep_cursor_le (M : CascadeModel) (st : TState)
    (us : ℕ → ℚ) (c : ℕ) : c ≤ (cascadeStep M st us c).2 := by
  obtain ⟨⟨sp, p4, x4, status⟩, rem⟩ := st
  cases status <;> simp only [cascadeStep] <;>
    first
      | (split_ifs <;> simp)
      | simp

/-- The transport loop never moves the cursor backwards. -/
theorem runTrace_cursor_le (M : CascadeModel) (fuel : ℕ) (st : TState)
    (us : ℕ → ℚ) (c : ℕ) : c ≤ (runTrace M fuel st us c).2 := by
  induction fuel generalizing st c with
  | zero => by_cases h : isTerminal st.had.status <;> simp [runTrace, h]
  | succ n ih =>
      by_cases h : isTerminal st.had.status
      · simp [runTrace, h]
      · have h' : isTerminal st.had.status = false := by simpa using h
        simp only [runTrace, h', Bool.false_eq_true, if_false]
        exact le_trans (cascadeStep_cursor_le M st us c) (ih _ _)

/-- One step depends only on the draws it consumes. -/
theorem cascadeStep_agree (M : CascadeModel) (st : TState)
    (us vs : ℕ → ℚ) (c : ℕ)
    (h : ∀ i, c ≤ i → i < (cascadeStep M st us c).2 → vs i = us i) :
    cascadeStep M st vs c = cascadeStep M st us c := by
  obtain ⟨⟨sp, p4, x4, status⟩, rem⟩ := st
  cases status
  case preCascade => rfl
  case inFormationZone => rfl
  case escaped => rfl
  case absorbed => rfl
  case rescatteredTerminal => rfl
  case propagating =>
    have hc : c < (cascadeStep M ⟨⟨sp, p4, x4, .propagating⟩, rem⟩ us c).2 := by
      simp only [cascadeStep]
      split_ifs <;> simp
    have h0 : vs c = us c := h c le_rfl hc
    by_cases hin : M.stillInside
        (movedBy M ⟨⟨sp, p4, x4, .propagating⟩, rem⟩ (us c)).had.x4
    · have hc2 : (cascadeStep M ⟨⟨sp, p4, x4, .propagating⟩, rem⟩ us c).2
          = c + 2 := by
        simp [cascadeStep, hin]
      have h1 : vs (c + 1) = us (c + 1) := h (c + 1) (by omega) (by omega)
      simp [cascadeStep, h0, h1, hin]
    · simp [cascadeStep, h0, hin]

/-- C6 core: the transport loop output depends only on the initial state
and the consumed prefix of the random stream. -/
theorem runTrace_agree (M : CascadeModel) (fuel : ℕ) (st : TState)
    (us vs : ℕ → ℚ) (c : ℕ)
    (h : ∀ i, c ≤ i → i < (runTrace M fuel st us c).2 → vs i = us i) :
    runTrace M fuel st vs c = runTrace M fuel st us c := by
  induction fuel generalizing st c with
  | zero => rfl
  | succ n ih =>
      by_cases ht : isTerminal st.had.status
      · simp [runTrace, ht]
      · have ht' : isTerminal st.had.status = false := by simpa using ht
        have hfc : (runTrace M (n + 1) st us c).2
            = (runTrace M n (cascadeStep M st us c).1 us
                (cascadeStep M st us c).2).2 := by
          simp [runTrace, ht']
        have hsc := cascadeStep_cursor_le M st us c
        have hrc : (cascadeStep M st us c).2 ≤ (runTrace M (n + 1) st us c).2 := by
          rw [hfc]
          exact runTrace_cursor_le M n _ us _
        have hstep : cascadeStep M st vs c = cascadeStep M st us c := by
          apply cascadeStep_agree
          intro i hci hi
          exact h i hci (lt_of_lt_of_le hi hrc)
        have hrest : runTrace M n (cascadeStep M st us c).1 vs
              (cascadeStep M st us c).2
            = runTrace M n (cascadeStep M st us c).1 us
              (cascadeStep M st us c).2 := by
          apply ih
          intro i hci hi
          exact h i (le_trans hsc hci) (hfc ▸ hi)
        simp [runTrace, ht', hstep, hrest]

/-- C6: the cascade is a deterministic function of the initial state and
the random stream, with draws consumed in a fixed order: two runs whose
streams agree on every consumed draw — in particular two runs given
identical streams — produce identical sequences of transport states,
outcomes and final cursors. -/
theorem intranuke_deterministic (M : CascadeModel) (fuel : ℕ)
    (st : TState) (us vs : ℕ → ℚ) (c : ℕ)
    (h : ∀ i, c ≤ i → i < (runTrace M fuel st us c).2 → vs i = us i) :
    runTrace M fuel st vs c = runTrace M fuel st us c :=
  runTrace_agree M fuel st us vs c h

/-- Witness for C6: two streams that differ only beyond the consumed
draws give identical transport traces. -/
theorem intranuke_deterministic_witness :
    runTrace sampleModel 2 samplePion (fun i => if i < 2 then 0 else 1) 0 =
      runTrace sampleModel 2 samplePion zeroStream 0 :=
  intranuke_deterministic sampleModel 2 samplePion zeroStream
    (fun i => if i < 2 then 0 else 1) 0
    (by
      intro i _ hi
      have h2 : (runTrace sampleModel 2 samplePion zeroStream 0).2 = 2 := by
        rfl
      rw [h2] at hi
      simp [zeroStream, hi])

/-! ### FateSelector and NuclearMedium claims -/

/-- C3: for every channel list with strictly positive mean free paths
(hence nonzero total mean free path), the FateSelector's per-channel
selection probabilities sum to exactly 1 — the partition of the unit
interval neither over- nor under-allocates. -/
theorem hadronFate_probs_sum_one (ls : List ℚ)
    (hpos : ∀ l ∈ ls, 0 < l) (hne : ls ≠ []) :
    lambdaTotal ls ≠ 0 ∧ (channelProbs ls).sum = 1 := by
  have hsum : 0 < (ls.map fun l => l⁻¹).sum := by
    apply List.sum_pos
    · intro x hx
      obtain ⟨l, hl, rfl⟩ := List.mem_map.mp hx
      exact inv_pos.mpr (hpos l hl)
    · simpa using hne
  have hS : (ls.map fun l => l⁻¹).sum ≠ 0 := ne_of_gt hsum
  constructor
  · simpa [lambdaTotal] using inv_ne_zero hS
  · have hmul : (channelProbs ls).sum
        = lambdaTotal ls * (ls.map fun l => l⁻¹).sum := by
      simp only [channelProbs, div_eq_mul_inv]
      exact List.sum_map_mul_left ls (fun l => l⁻¹) (lambdaTotal ls)
    rw [hmul, lambdaTotal, inv_mul_cancel₀ hS]

/-- Witness for C3 on the channel list with mean free paths 2 and 3. -/
theorem hadronFate_probs_sum_one_witness :
    ((∀ l ∈ ([2, 3] : List ℚ), 0 < l) ∧ ([2, 3] : List ℚ) ≠ []) ∧
      lambdaTotal [2, 3] ≠ 0 ∧ (channelProbs [2, 3]).sum = 1 :=
  ⟨⟨by norm_num, by simp⟩,
    hadronFate_probs_sum_one [2, 3] (by norm_num) (by simp)⟩

/-- C7: for every positive radius-scale parameter, the nuclear density
vanishes at and beyond the nuclear radius, is non-negative everywhere,
and the radius is strictly increasing in the mass number. -/
theorem nuclearMedium_contract (r0 : ℝ) (h : 0 < r0) :
    (∀ (A : ℕ) (r : ℝ), nuclearRadius r0 A ≤ r → nuclearDensity r0 A r = 0) ∧
      (∀ (A : ℕ) (r : ℝ), 0 ≤ nuclearDensity r0 A r) ∧
      ∀ A₁ A₂ : ℕ, A₁ < A₂ → nuclearRadius r0 A₁ < nuclearRadius r0 A₂ := by
  have hR : ∀ A : ℕ, 0 ≤ nuclearRadius r0 A := by
    intro A
    unfold nuclearRadius
    exact mul_nonneg h.le (Real.rpow_nonneg (Nat.cast_nonneg A) _)
  refine ⟨?_, ?_, ?_⟩
  · intro A r hr
    simp [nuclearDensity, not_lt.mpr hr]
  · intro A r
    unfold nuclearDensity
    split_ifs with hlt
    · apply div_nonneg
      · positivity
      · have h3 : (0 : ℝ) ≤ nuclearRadius r0 A ^ 3 := pow_nonneg (hR A) 3
        have h4 : (0 : ℝ) ≤ 4 * Real.pi :=
          mul_nonneg (by norm_num) Real.pi_pos.le
        exact mul_nonneg h4 h3
    · exact le_rfl
  · intro A₁ A₂ hA
    unfold nuclearRadius
    refine mul_lt_mul_of_pos_left ?_ h
    exact Real.rpow_lt_rpow (Nat.cast_nonneg A₁) (by exact_mod_cast hA)
      (by norm_num)

/-- Witness for C7 at radius scale 1 and mass numbers 12 and 13. -/
theorem nuclearMedium_contract_witness :
    (0 : ℝ) < 1 ∧
      nuclearDensity 1 12 (nuclearRadius 1 12) = 0 ∧
      (0 : ℝ) ≤ nuclearDensity 1 12 2 ∧
      nuclearRadius 1 12 < nuclearRadius 1 13 :=
  ⟨one_pos,
    (nuclearMedium_contract 1 one_pos).1 12 _ le_rfl,
    (nuclearMedium_contract 1 one_pos).2.1 12 2,
    (nuclearMedium_contract 1 one_pos).2.2 12 13 (by norm_num)⟩

/-! ### Failure semantics of the fragmentation generators -/

/-- When every candidate is rejected, the charm retry loop exhausts any
remaining bound and fails the assertion (whole-run abort). -/
theorem charmLoopAux_all_fail (tries : ℕ → CharmTry) (EHad MHad : ℚ)
    (hfail : ∀ n, charmAccept (tries n) EHad MHad = false) :
    ∀ fuel itry, charmLoopAux tries EHad MHad fuel itry = .runAbort := by
  intro fuel
  induction fuel with
  | zero => intro itry; rfl
  | succ n ih =>
      intro itry
      simp [charmLoopAux, hfail itry, ih]

/-- A candidate returned by the charm retry loop passed the acceptance
test. -/
theorem charmLoopAux_ok (tries : ℕ → CharmTry) (EHad MHad : ℚ) :
    ∀ fuel itry t, charmLoopAux tries EHad MHad fuel itry = .ok t →
      charmAccept t EHad MHad = true := by
  intro fuel
  induction fuel with
  | zero => intro itry t h; cases h
  | succ n ih =>
      intro itry t h
      by_cases hacc : charmAccept (tries itry) EHad MHad
      · rw [charmLoopAux, if_pos hacc] at h
        cases h
        exact hacc
      · rw [charmLoopAux, if_neg hacc] at h
        exact ih (itry + 1) t h

/-- C5 counterexample: a candidate stream whose hadron mass always
exceeds the available hadronic mass makes
`FragmentCharmDISGenerator::GenerateCharmHadronOnly` exhaust its
1000-try bound and fail its assertion — a whole-run abort, not the
event-flagged, event-scoped stop the claim states. -/
theorem charm_retry_runAbort_counterexample :
    charmRetryLoop (fun _ => ⟨421, 2, 1⟩) 1 1 = GenResult.runAbort ∧
      GenResult.runAbort ≠ (GenResult.eventAbort : GenResult CharmTry) := by
  constructor
  · exact charmLoopAux_all_fail _ 1 1
      (fun n => by norm_num [charmAccept]) 1000 0
  · intro h
    cases h

/-- C5 amended: conservation-violating candidates are rejected and
resampled up to the 1000-try bound and any returned candidate passed
the acceptance test; a null hadronizer result flags the event as
unusable and aborts only the current event; but exhausting the charm
retry bound fails an assertion that aborts the whole run without
flagging the event. -/
theorem fragmentation_failure_semantics (tries : ℕ → CharmTry)
    (EHad MHad : ℚ) (is_nucleus : Bool) (mom : Int)
    (boost : Vec4 → Vec4) :
    (∀ t, charmRetryLoop tries EHad MHad = GenResult.ok t →
        charmAccept t EHad MHad = true) ∧
      addFragmentationProducts is_nucleus mom boost none =
        GenResult.eventAbort ∧
      ((∀ n, charmAccept (tries n) EHad MHad = false) →
        charmRetryLoop tries EHad MHad = GenResult.runAbort) :=
  ⟨fun t h => charmLoopAux_ok tries EHad MHad 1000 0 t h,
    rfl,
    fun hfail => charmLoopAux_all_fail tries EHad MHad hfail 1000 0⟩

/-- Witness for the amended C5 on explicit inputs. -/
theorem fragmentation_failure_semantics_witness :
    charmRetryLoop (fun _ => ⟨411, 5, 1⟩) 1 1 = GenResult.runAbort ∧
      addFragmentationProducts true 3 id none = GenResult.eventAbort :=
  ⟨(fragmentation_failure_semantics (fun _ => ⟨411, 5, 1⟩) 1 1 true 3 id).2.2
      (fun n => by norm_num [charmAccept]),
    (fragmentation_failure_semantics (fun _ => ⟨411, 5, 1⟩) 1 1 true 3 id).2.1⟩

/-! ### Status tagging of fragmentation products -/

/-- C9: every fragmentation product appended to the event ledger is
tagged hadron-in-the-nucleus exactly when the struck nucleon is inside
a nucleus, and stable-final-state otherwise. -/
theorem fragProducts_status (is_nucleus : Bool) (mom : Int)
    (boost : Vec4 → Vec4) (plist : List TMCParticle) (q : GHepParticleR)
    (hq : q ∈ fragProducts is_nucleus mom boost plist) :
    (q.status = GHepStatus.hadronInTheNucleus ↔ is_nucleus = true) ∧
      (q.status = GHepStatus.stableFinalState ↔ is_nucleus = false) := by
  obtain ⟨p, hp, hmk⟩ := List.mem_filterMap.mp hq
  by_cases hks : p.ks = 1
  · rw [if_pos hks] at hmk
    cases hmk
    cases is_nucleus <;> simp [fragmentationStatus]
  · rw [if_neg hks] at hmk
    cases hmk

/-- Witness for C9: one KS = 1 product appended inside a nucleus. -/
theorem fragProducts_status_witness :
    (GHepParticleR.mk 211 (fragmentationStatus true) 3 ⟨0, 0, 0, 1⟩
        ⟨0, 0, 0, 0⟩ ∈
      fragProducts true 3 id [⟨1, 211, ⟨0, 0, 0, 1⟩⟩]) ∧
      ((GHepParticleR.mk 211 (fragmentationStatus true) 3 ⟨0, 0, 0, 1⟩
          ⟨0, 0, 0, 0⟩).status = GHepStatus.hadronInTheNucleus ↔
        true = true) :=
  ⟨by simp [fragProducts],
    (fragProducts_status true 3 id [⟨1, 211, ⟨0, 0, 0, 1⟩⟩] _
      (by simp [fragProducts])).1⟩

/-! ### Null-safe decay handling -/

/-- A pi0 ledger entry in the stable final state. -/
def samplePi0 : GHepParticleR :=
  ⟨111, .stableFinalState, 0, ⟨0, 0, 0, 1⟩, ⟨0, 0, 0, 0⟩⟩

/-- C10: a particle visited by the decay loop whose decay model returns
a null product container leaves the event record unchanged — its
status is not set to the decayed state and no daughters are appended;
the record changes (status to decayed state, daughters appended) only
when a non-null container is returned. -/
theorem decayVisit_null_unchanged
    (decayer : Int → Vec4 → Option (List TMCParticle))
    (isBaryonRes : Int → Bool) (evrec : List GHepParticleR) (ipos : ℕ)
    (p : GHepParticleR) (hp : evrec.get? ipos = some p)
    (hdec : toBeDecayed isBaryonRes p = true) :
    (decayer p.pdg p.p4 = none →
        decayVisit decayer isBaryonRes evrec ipos = evrec) ∧
      ∀ products, decayer p.pdg p.p4 = some products →
        decayVisit decayer isBaryonRes evrec ipos =
          evrec.set ipos { p with status := GHepStatus.decayedState }
            ++ copyToEventRecord products ipos := by
  rw [List.get?_eq_getElem?] at hp
  constructor
  · intro hnone
    simp [decayVisit, hp, hdec, hnone]
  · intro products hsome
    simp [decayVisit, hp, hdec, hsome]

/-- Witness for C10: a null decayer leaves a one-particle record
unchanged. -/
theorem decayVisit_null_unchanged_witness :
    (([samplePi0] : List GHepParticleR).get? 0 = some samplePi0 ∧
      toBeDecayed (fun _ => false) samplePi0 = true) ∧
      decayVisit (fun _ _ => none) (fun _ => false) [samplePi0] 0 =
        [samplePi0] :=
  ⟨⟨rfl, by decide⟩,
    (decayVisit_null_unchanged (fun _ _ => none) (fun _ => false)
      [samplePi0] 0 samplePi0 rfl (by decide)).1 rfl⟩

end Genie
